import Mathlib

/-!
Shallow embedding of the BlackRoad task manager engine
(`src/task_manager.py`) and proofs about it.

The SQLite table stores every column as TEXT (or NULL); we model a stored
row (`Row`) with `String` fields for `priority`/`status` exactly as the
database does, and the Python `Task` dataclass (`Task`) with the
`Priority`/`Status` enumerations.  `_row_to_task` converts fallibly
(`Priority(row["priority"])` raises `ValueError` on a value outside the
enumeration), hence `row_to_task : Row → Option Task`.

Timestamps (`datetime.now().isoformat()`) and today's date (`date.today()`)
are passed in explicitly as parameters.  SQLite's `LIKE` operator is
embedded as `likeMatch` (ASCII case folding, `%`/`_` wildcards), its
`ORDER BY` clause as the comparator `rowLe`, and its sort as a sort by that
comparator (SQLite guarantees only the ordering, so any sorted permutation
is a faithful model).
-/

namespace TaskManager

/-- Enumeration `Priority` from the source (`low/medium/high/urgent`). -/
inductive Priority
  | low
  | medium
  | high
  | urgent
deriving DecidableEq, Repr

/-- String value of a `Priority` member, as in the Python `str` enum. -/
def Priority.val : Priority → String
  | .low => "low"
  | .medium => "medium"
  | .high => "high"
  | .urgent => "urgent"

/-- Embeds the fallible enum constructor `Priority(s)`: `none` models the
`ValueError` raised on a string outside the enumeration. -/
def Priority.ofString (s : String) : Option Priority :=
  if s = "low" then some .low
  else if s = "medium" then some .medium
  else if s = "high" then some .high
  else if s = "urgent" then some .urgent
  else none

/-- Enumeration `Status` from the source. -/
inductive Status
  | pending
  | in_progress
  | done
  | cancelled
deriving DecidableEq, Repr

/-- String value of a `Status` member. -/
def Status.val : Status → String
  | .pending => "pending"
  | .in_progress => "in_progress"
  | .done => "done"
  | .cancelled => "cancelled"

/-- Embeds the fallible enum constructor `Status(s)`. -/
def Status.ofString (s : String) : Option Status :=
  if s = "pending" then some .pending
  else if s = "in_progress" then some .in_progress
  else if s = "done" then some .done
  else if s = "cancelled" then some .cancelled
  else none

/-- One row of the `tasks` table.  `priority` and `status` are TEXT columns
(the schema has no CHECK constraint), `deadline` is a nullable TEXT column,
and `tags` is the JSON-array column, modelled as the list it encodes. -/
structure Row where
  id : Nat
  title : String
  description : String
  priority : String
  status : String
  deadline : Option String
  tags : List String
  notes : String
  created_at : String
  updated_at : String
deriving DecidableEq, Repr

/-- The Python `Task` dataclass (fields in declaration order). -/
structure Task where
  title : String
  description : String
  priority : Priority
  status : Status
  deadline : Option String
  tags : List String
  notes : String
  created_at : String
  updated_at : String
  id : Option Nat
deriving DecidableEq, Repr

/-- Embeds `TaskManager._row_to_task`; `none` models the `ValueError`
raised by `Priority(row["priority"])` or `Status(row["status"])` on a
value outside the enumeration. -/
def row_to_task (r : Row) : Option Task :=
  match Priority.ofString r.priority, Status.ofString r.status with
  | some p, some s =>
    some ⟨r.title, r.description, p, s, r.deadline, r.tags, r.notes,
          r.created_at, r.updated_at, some r.id⟩
  | _, _ => none

/-- Serialization of a task back to a stored row (the tuple bound in the
INSERT statement, and likewise the flat record built by `export_json`):
enumerations are rendered as their `.value` strings, tags as an array. -/
def task_to_row (t : Task) : Row :=
  ⟨t.id.getD 0, t.title, t.description, t.priority.val, t.status.val,
   t.deadline, t.tags, t.notes, t.created_at, t.updated_at⟩

/-- State of the database: the rows of the `tasks` table (in rowid order)
together with the next id the AUTOINCREMENT column will assign. -/
structure Store where
  rows : List Row
  nextId : Nat
deriving DecidableEq, Repr

/-- Embeds `TaskManager.add`.  The call `Priority(priority)` raises
`ValueError` on a string outside the enumeration, modelled by `none`
(the store is untouched in that case, since the exception is raised before
the INSERT).  On success the task is inserted with `status=pending`, both
timestamps set to `now`, and returned carrying the assigned id. -/
def add (st : Store) (title : String) (description : String)
    (priority : String) (deadline : Option String) (tags : List String)
    (notes : String) (now : String) : Option (Task × Store) :=
  match Priority.ofString priority with
  | none => none
  | some p =>
    let task : Task :=
      ⟨title, description, p, Status.pending, deadline, tags, notes,
       now, now, none⟩
    let row : Row :=
      ⟨st.nextId, task.title, task.description, task.priority.val,
       task.status.val, task.deadline, task.tags, task.notes,
       task.created_at, task.updated_at⟩
    some ({ task with id := some st.nextId },
          ⟨st.rows ++ [row], st.nextId + 1⟩)

/-- Rank assigned to a priority string by the `ORDER BY CASE` expression:
`urgent` 1, `high` 2, `medium` 3, anything else 4. -/
def priorityRank (p : String) : Nat :=
  if p = "urgent" then 1 else if p = "high" then 2
  else if p = "medium" then 3 else 4

/-- ASCII-only lower casing, as used by SQLite's default `LIKE`. -/
def asciiLower (c : Char) : Char :=
  if 'A' ≤ c ∧ c ≤ 'Z' then Char.ofNat (c.toNat + 32) else c

/-- Embeds SQLite's `LIKE` pattern matching (with no ESCAPE clause):
`%` matches any sequence, `_` matches exactly one character, and any other
pattern character matches ASCII-case-insensitively. -/
def likeMatch : List Char → List Char → Bool
  | [], s => s.isEmpty
  | p :: ps, s =>
    if p = '%' then s.tails.any (fun t => likeMatch ps t)
    else
      match s with
      | [] => false
      | c :: cs =>
        (if p = '_' then true else asciiLower p == asciiLower c)
          && likeMatch ps cs

/-- The filter `title LIKE '%' || term || '%'` applied to one string. -/
def likeSub (term s : String) : Bool :=
  likeMatch ('%' :: (term.data ++ ['%'])) s.data

/-- Embeds the WHERE clause built by `list_tasks`.  Python's `if status:`
is a truthiness test, so `None` and the empty string both leave the
corresponding filter out of the query. -/
def rowMatches (status priority search : Option String) (r : Row) : Bool :=
  (match status with
   | none => true
   | some s => if s = "" then true else r.status == s)
  && (match priority with
      | none => true
      | some p => if p = "" then true else r.priority == p)
  && (match search with
      | none => true
      | some q =>
        if q = "" then true else likeSub q r.title || likeSub q r.description)

/-- Strict lexicographic comparison of char lists by code point; this is
SQLite's BINARY collation on (UTF-8) TEXT values. -/
def clLt : List Char → List Char → Bool
  | [], [] => false
  | [], _ :: _ => true
  | _ :: _, [] => false
  | a :: as, b :: bs =>
    if a.toNat = b.toNat then clLt as bs else decide (a.toNat < b.toNat)

/-- NULL tag of the `deadline` column under `NULLS LAST`: non-NULL values
(order 0) sort before NULL (order 1). -/
def dlNull : Option String → Nat
  | none => 1
  | some _ => 0

/-- TEXT value of the `deadline` column used for comparison among
non-NULL deadlines (the stand-in for NULL is never compared, since the
NULL tag already differs). -/
def dlStr : Option String → List Char
  | none => []
  | some s => s.data

/-- Sort key of a row under the `ORDER BY` clause of `list_tasks`:
priority rank, then the deadline's NULL tag (`NULLS LAST`), then the
deadline's text, then `created_at`. -/
def sortKey (r : Row) : Nat × Nat × List Char × List Char :=
  (priorityRank r.priority, dlNull r.deadline, dlStr r.deadline,
   r.created_at.data)

/-- Lexicographic comparison of sort keys (each text component under the
BINARY collation). -/
def keyLe : Nat × Nat × List Char × List Char →
    Nat × Nat × List Char × List Char → Bool
  | (a1, a2, a3, a4), (b1, b2, b3, b4) =>
    if a1 ≠ b1 then decide (a1 < b1)
    else if a2 ≠ b2 then decide (a2 < b2)
    else if a3 ≠ b3 then clLt a3 b3
    else !clLt b4 a4

/-- Embeds the `ORDER BY` clause of `list_tasks` as a total comparator:
priority rank first, then `deadline` ascending with NULLS LAST, then
`created_at` ascending. -/
def rowLe (a b : Row) : Bool := keyLe (sortKey a) (sortKey b)

/-- Result rows of the SELECT issued by `list_tasks`: the matching rows in
the documented order (SQLite fixes only the ordering, so a stable sort of
the filtered rows is a faithful model of the result set). -/
def queryRows (st : Store) (status priority search : Option String) :
    List Row :=
  List.insertionSort (fun a b => rowLe a b = true)
    (st.rows.filter (rowMatches status priority search))

/-- Conversion of each fetched row via `_row_to_task`; the first failing
row aborts the whole call (the list comprehension propagates the raised
`ValueError`). -/
def rowsToTasks : List Row → Option (List Task)
  | [] => some []
  | r :: rs =>
    match row_to_task r, rowsToTasks rs with
    | some t, some ts => some (t :: ts)
    | _, _ => none

/-- Embeds `TaskManager.list_tasks`. -/
def list_tasks (st : Store) (status priority search : Option String) :
    Option (List Task) :=
  rowsToTasks (queryRows st status priority search)

/-- Embeds `TaskManager.update_status`: one UPDATE statement setting
`status` and `updated_at` on every row with the given id, returning
`rowcount > 0`.  No validation of the new status value is performed. -/
def update_status (st : Store) (task_id : Nat) (new_status : String)
    (now : String) : Bool × Store :=
  (st.rows.any (fun r => r.id == task_id),
   ⟨st.rows.map (fun r =>
      if r.id = task_id then
        { r with status := new_status, updated_at := now }
      else r),
    st.nextId⟩)

/-- Embeds `TaskManager.delete`: one DELETE statement, returning
`rowcount > 0`.  The AUTOINCREMENT sequence is not reset. -/
def delete (st : Store) (task_id : Nat) : Bool × Store :=
  (st.rows.any (fun r => r.id == task_id),
   ⟨st.rows.filter (fun r => !(r.id == task_id)), st.nextId⟩)

/-- Embeds `TaskManager.export_json`: the records of the written JSON
array (one flat record per task returned by the unfiltered `list_tasks`,
enumerations rendered as their text values, tags as an array) together
with the returned count `len(records)`. -/
def export_json (st : Store) : Option (List Row × Nat) :=
  (list_tasks st none none none).map
    (fun ts => (ts.map task_to_row, (ts.map task_to_row).length))

/-- Calendar date, as Python's `datetime.date` (compared by year, month,
day). -/
structure Date where
  year : Nat
  month : Nat
  day : Nat
deriving DecidableEq, Repr

/-- Comparison `date < date` of Python date objects. -/
def Date.lt (a b : Date) : Bool :=
  if a.year ≠ b.year then a.year < b.year
  else if a.month ≠ b.month then a.month < b.month
  else a.day < b.day

/-- Value of an ASCII digit, `none` for any other character. -/
def digitVal (c : Char) : Option Nat :=
  if '0' ≤ c ∧ c ≤ '9' then some (c.toNat - 48) else none

/-- Gregorian leap-year rule used by `datetime.date`. -/
def isLeap (y : Nat) : Bool :=
  (y % 4 = 0 && y % 100 ≠ 0) || y % 400 = 0

/-- Length of a month, as validated by the `datetime.date` constructor. -/
def daysInMonth (y m : Nat) : Nat :=
  if m = 1 ∨ m = 3 ∨ m = 5 ∨ m = 7 ∨ m = 8 ∨ m = 10 ∨ m = 12 then 31
  else if m = 4 ∨ m = 6 ∨ m = 9 ∨ m = 11 then 30
  else if isLeap y then 29 else 28

/-- Embeds `date.fromisoformat` on the `YYYY-MM-DD` form: `none` models
the `ValueError` raised on any other text or an invalid calendar date. -/
def parseISODate (s : String) : Option Date :=
  match s.data with
  | [y1, y2, y3, y4, h1, m1, m2, h2, d1, d2] =>
    if h1 = '-' ∧ h2 = '-' then
      match digitVal y1, digitVal y2, digitVal y3, digitVal y4,
            digitVal m1, digitVal m2, digitVal d1, digitVal d2 with
      | some a, some b, some c, some d, some e, some f, some g, some h =>
        let y := 1000 * a + 100 * b + 10 * c + d
        let mo := 10 * e + f
        let da := 10 * g + h
        if 1 ≤ y ∧ 1 ≤ mo ∧ mo ≤ 12 ∧ 1 ≤ da ∧ da ≤ daysInMonth y mo then
          some ⟨y, mo, da⟩
        else none
      | _, _, _, _, _, _, _, _ => none
    else none
  | _ => none

/-- Truthiness of the optional `deadline` field: Python's
`not self.deadline` is true for `None` and for the empty string. -/
def falsyDeadline : Option String → Bool
  | none => true
  | some s => s == ""

/-- Embeds the method `Task.is_overdue`: false when the deadline is falsy
or the status is done/cancelled; otherwise compares the parsed deadline
with today, treating an unparseable deadline (caught `ValueError`) as not
overdue. -/
def Task.is_overdue (t : Task) (today : Date) : Bool :=
  if falsyDeadline t.deadline || t.status == Status.done
      || t.status == Status.cancelled then false
  else
    match t.deadline with
    | none => false
    | some d =>
      match parseISODate d with
      | none => false
      | some dt => Date.lt dt today

/-- The derived overdue property evaluated directly on a stored row
(the same computation `Task.is_overdue` performs, with the status read as
its stored text value); used to recount overdue tasks independently. -/
def rowOverdue (r : Row) (today : Date) : Bool :=
  if falsyDeadline r.deadline || r.status == "done"
      || r.status == "cancelled" then false
  else
    match r.deadline with
    | none => false
    | some d =>
      match parseISODate d with
      | none => false
      | some dt => Date.lt dt today

/-- Result of `TaskManager.stats`. -/
structure StatsR where
  total : Nat
  by_status : List (String × Nat)
  by_priority : List (String × Nat)
  overdue : Nat
deriving DecidableEq, Repr

/-- One step of the dict-building loop
`d[k] = d.get(k, 0) + 1`: increment the entry of `k`, inserting it at the
end if absent (Python dicts keep insertion order). -/
def bump : List (String × Nat) → String → List (String × Nat)
  | [], k => [(k, 1)]
  | (k', n) :: rest, k =>
    if k' = k then (k', n + 1) :: rest else (k', n) :: bump rest k

/-- Embeds `TaskManager.stats`. -/
def stats (st : Store) (today : Date) : Option StatsR :=
  (list_tasks st none none none).map
    (fun ts =>
      { total := ts.length
        by_status := ts.foldl (fun d t => bump d t.status.val) []
        by_priority := ts.foldl (fun d t => bump d t.priority.val) []
        overdue := ts.countP (fun t => t.is_overdue today) })

/-- One engine operation, for stating invariants over operation
sequences.  The timestamps are carried as data. -/
inductive Op
  | addT (title description priority : String) (deadline : Option String)
      (tags : List String) (notes now : String)
  | updT (task_id : Nat) (new_status now : String)
  | delT (task_id : Nat)

/-- Effect of one operation on the store; a raised `ValueError` in `add`
leaves the store unchanged (the exception precedes the INSERT). -/
def applyOp (st : Store) : Op → Store
  | .addT t d p dl tg n now =>
    match add st t d p dl tg n now with
    | some (_, st') => st'
    | none => st
  | .updT i s now => (update_status st i s now).2
  | .delT i => (delete st i).2

/-- Membership of a string in the `Status` enumeration. -/
def validStatusStr (s : String) : Bool :=
  s == "pending" || s == "in_progress" || s == "done" || s == "cancelled"

/-- Membership of a string in the `Priority` enumeration. -/
def validPriorityStr (p : String) : Bool :=
  p == "low" || p == "medium" || p == "high" || p == "urgent"

/-- Well-formedness of a stored row: enumeration columns hold enumeration
values. -/
def RowWF (r : Row) : Prop :=
  validPriorityStr r.priority = true ∧ validStatusStr r.status = true

/-- Well-formedness of the whole table. -/
def StoreWF (st : Store) : Prop := ∀ r ∈ st.rows, RowWF r

/-- An operation whose status argument (if any) lies in the `Status`
enumeration. -/
def OpValid : Op → Prop
  | .updT _ s _ => validStatusStr s = true
  | _ => True

/-- Strict deadline order of the documented sort: a non-NULL deadline
precedes a NULL one, and non-NULL deadlines compare as text ascending. -/
def deadlineBefore (a b : Option String) : Prop :=
  dlNull a < dlNull b ∨ (dlNull a = dlNull b ∧ clLt (dlStr a) (dlStr b) = true)

/-- The documented result order of `list_tasks`, stated as a proposition:
`a` may precede `b` when `a` has strictly more urgent priority rank, or
equal rank and strictly earlier deadline (NULLS LAST), or equal rank and
deadline and `created_at` not after `b`'s. -/
def rowBefore (a b : Row) : Prop :=
  priorityRank a.priority < priorityRank b.priority
  ∨ (priorityRank a.priority = priorityRank b.priority ∧
     (deadlineBefore a.deadline b.deadline
      ∨ (dlNull a.deadline = dlNull b.deadline
         ∧ dlStr a.deadline = dlStr b.deadline
         ∧ clLt b.created_at.data a.created_at.data = false)))

/-! ### Order facts about the comparator -/

theorem char_toNat_inj {a b : Char} (h : a.toNat = b.toNat) : a = b := by
  have h2 := congrArg Char.ofNat h
  rwa [Char.ofNat_toNat, Char.ofNat_toNat] at h2

theorem clLt_irrefl : ∀ a : List Char, clLt a a = false := by
  intro a
  induction a with
  | nil => rfl
  | cons x xs ih => simp [clLt, ih]

theorem clLt_trans :
    ∀ a b c : List Char, clLt a b = true → clLt b c = true →
      clLt a c = true := by
  intro a
  induction a with
  | nil =>
    intro b c h1 h2
    cases b with
    | nil => simp [clLt] at h1
    | cons y ys => cases c with
      | nil => simp [clLt] at h2
      | cons z zs => simp [clLt]
  | cons x xs ih =>
    intro b c h1 h2
    cases b with
    | nil => simp [clLt] at h1
    | cons y ys =>
      cases c with
      | nil => simp [clLt] at h2
      | cons z zs =>
        simp only [clLt] at h1 h2 ⊢
        by_cases hxy : x.toNat = y.toNat
        · by_cases hyz : y.toNat = z.toNat
          · have hxz : x.toNat = z.toNat := hxy.trans hyz
            rw [if_pos hxy] at h1
            rw [if_pos hyz] at h2
            rw [if_pos hxz]
            exact ih ys zs h1 h2
          · rw [if_pos hxy] at h1
            rw [if_neg hyz] at h2
            have hy : y.toNat < z.toNat := of_decide_eq_true h2
            have hxz : ¬x.toNat = z.toNat := by omega
            rw [if_neg hxz]
            exact decide_eq_true (by omega)
        · by_cases hyz : y.toNat = z.toNat
          · rw [if_neg hxy] at h1
            have hx : x.toNat < y.toNat := of_decide_eq_true h1
            have hxz : ¬x.toNat = z.toNat := by omega
            rw [if_neg hxz]
            exact decide_eq_true (by omega)
          · rw [if_neg hxy] at h1
            rw [if_neg hyz] at h2
            have hx : x.toNat < y.toNat := of_decide_eq_true h1
            have hy : y.toNat < z.toNat := of_decide_eq_true h2
            have hxz : ¬x.toNat = z.toNat := by omega
            rw [if_neg hxz]
            exact decide_eq_true (by omega)

theorem clLt_trichotomy :
    ∀ a b : List Char, clLt a b = true ∨ clLt b a = true ∨ a = b := by
  intro a
  induction a with
  | nil =>
    intro b
    cases b with
    | nil => simp [clLt]
    | cons y ys => simp [clLt]
  | cons x xs ih =>
    intro b
    cases b with
    | nil => simp [clLt]
    | cons y ys =>
      by_cases hxy : x.toNat = y.toNat
      · have hx : x = y := char_toNat_inj hxy
        subst hx
        rcases ih ys with h | h | h
        · exact Or.inl (by simp [clLt, h])
        · exact Or.inr (Or.inl (by simp [clLt, h]))
        · exact Or.inr (Or.inr (by rw [h]))
      · rcases Nat.lt_or_ge x.toNat y.toNat with h | h
        · refine Or.inl ?_
          simp only [clLt]
          rw [if_neg hxy]
          exact decide_eq_true h
        · have hlt : y.toNat < x.toNat := by omega
          have hyx : ¬y.toNat = x.toNat := by omega
          refine Or.inr (Or.inl ?_)
          simp only [clLt]
          rw [if_neg hyx]
          exact decide_eq_true hlt

theorem clLt_asymm {a b : List Char} (h : clLt a b = true) :
    clLt b a = false := by
  by_contra hc
  have hba : clLt b a = true := by
    cases hh : clLt b a
    · exact absurd hh hc
    · rfl
  have := clLt_trans a b a h hba
  rw [clLt_irrefl] at this
  exact Bool.false_ne_true this

theorem clLt_false_trans {a b c : List Char} (h1 : clLt b a = false)
    (h2 : clLt c b = false) : clLt c a = false := by
  cases hca : clLt c a with
  | false => rfl
  | true =>
    rcases clLt_trichotomy a b with h | h | h
    · have := clLt_trans c a b hca h
      simp [this] at h2
    · simp [h] at h1
    · subst h
      simp [hca] at h2

theorem keyLe_iff (a1 b1 a2 b2 : Nat) (a3 a4 b3 b4 : List Char) :
    keyLe (a1, a2, a3, a4) (b1, b2, b3, b4) = true ↔
      a1 < b1 ∨ (a1 = b1 ∧ (a2 < b2 ∨ (a2 = b2 ∧
        ((a3 ≠ b3 ∧ clLt a3 b3 = true)
          ∨ (a3 = b3 ∧ clLt b4 a4 = false))))) := by
  by_cases h1 : a1 = b1 <;> by_cases h2 : a2 = b2 <;>
    by_cases h3 : a3 = b3 <;>
    simp [keyLe, h1, h2, h3, lt_self_iff_false, Bool.not_eq_true']

theorem keyLe_total (k1 k2 : Nat × Nat × List Char × List Char) :
    keyLe k1 k2 = true ∨ keyLe k2 k1 = true := by
  obtain ⟨a1, a2, a3, a4⟩ := k1
  obtain ⟨b1, b2, b3, b4⟩ := k2
  rw [keyLe_iff, keyLe_iff]
  by_cases h1 : a1 = b1
  · subst h1
    by_cases h2 : a2 = b2
    · subst h2
      by_cases h3 : a3 = b3
      · subst h3
        cases hlt : clLt b4 a4 with
        | false => exact Or.inl (by tauto)
        | true =>
          have : clLt a4 b4 = false := clLt_asymm hlt
          exact Or.inr (by tauto)
      · rcases clLt_trichotomy a3 b3 with h | h | h
        · exact Or.inl (by tauto)
        · have h3' : b3 ≠ a3 := Ne.symm h3
          exact Or.inr (by tauto)
        · exact absurd h h3
    · rcases Nat.lt_or_ge a2 b2 with h | h
      · exact Or.inl (by tauto)
      · have : b2 < a2 := by omega
        exact Or.inr (by tauto)
  · rcases Nat.lt_or_ge a1 b1 with h | h
    · exact Or.inl (by tauto)
    · have : b1 < a1 := by omega
      exact Or.inr (by tauto)

theorem keyLe_trans {k1 k2 k3 : Nat × Nat × List Char × List Char}
    (h1 : keyLe k1 k2 = true) (h2 : keyLe k2 k3 = true) :
    keyLe k1 k3 = true := by
  obtain ⟨a1, a2, a3, a4⟩ := k1
  obtain ⟨b1, b2, b3, b4⟩ := k2
  obtain ⟨c1, c2, c3, c4⟩ := k3
  rw [keyLe_iff] at h1 h2 ⊢
  rcases h1 with h1 | ⟨e1, h1⟩
  · rcases h2 with h2 | ⟨e2, h2⟩
    · exact Or.inl (by omega)
    · exact Or.inl (by omega)
  · subst e1
    rcases h2 with h2 | ⟨e2, h2⟩
    · exact Or.inl h2
    · subst e2
      refine Or.inr ⟨rfl, ?_⟩
      rcases h1 with h1 | ⟨f1, h1⟩
      · rcases h2 with h2 | ⟨f2, h2⟩
        · exact Or.inl (by omega)
        · exact Or.inl (by omega)
      · subst f1
        rcases h2 with h2 | ⟨f2, h2⟩
        · exact Or.inl h2
        · subst f2
          refine Or.inr ⟨rfl, ?_⟩
          rcases h1 with ⟨n1, l1⟩ | ⟨q1, l1⟩
          · rcases h2 with ⟨n2, l2⟩ | ⟨q2, l2⟩
            · by_cases hac : a3 = c3
              · subst hac
                have := clLt_asymm l1
                simp [this] at l2
              · exact Or.inl ⟨hac, clLt_trans a3 b3 c3 l1 l2⟩
            · subst q2
              exact Or.inl ⟨n1, l1⟩
          · subst q1
            rcases h2 with ⟨n2, l2⟩ | ⟨q2, l2⟩
            · exact Or.inl ⟨n2, l2⟩
            · subst q2
              exact Or.inr ⟨rfl, clLt_false_trans l1 l2⟩

theorem rowLe_total (a b : Row) : rowLe a b = true ∨ rowLe b a = true :=
  keyLe_total (sortKey a) (sortKey b)

theorem rowLe_trans {a b c : Row} (h1 : rowLe a b = true)
    (h2 : rowLe b c = true) : rowLe a c = true :=
  keyLe_trans h1 h2

theorem rowLe_iff_rowBefore (a b : Row) :
    rowLe a b = true ↔ rowBefore a b := by
  unfold rowLe sortKey rowBefore deadlineBefore
  rw [keyLe_iff]
  constructor
  · rintro (h | ⟨e1, h | ⟨e2, ⟨n3, l3⟩ | ⟨q3, l4⟩⟩⟩)
    · exact Or.inl h
    · exact Or.inr ⟨e1, Or.inl (Or.inl h)⟩
    · exact Or.inr ⟨e1, Or.inl (Or.inr ⟨e2, l3⟩)⟩
    · exact Or.inr ⟨e1, Or.inr ⟨e2, q3, l4⟩⟩
  · rintro (h | ⟨e1, (h | ⟨e2, l3⟩) | ⟨e2, q3, l4⟩⟩)
    · exact Or.inl h
    · exact Or.inr ⟨e1, Or.inl h⟩
    · refine Or.inr ⟨e1, Or.inr ⟨e2, Or.inl ⟨?_, l3⟩⟩⟩
      intro hq
      rw [hq, clLt_irrefl] at l3
      exact Bool.false_ne_true l3
    · exact Or.inr ⟨e1, Or.inr ⟨e2, Or.inr ⟨q3, l4⟩⟩⟩

/-! ### Enumeration and conversion facts -/

theorem priority_ofString_val {s : String} {p : Priority}
    (h : Priority.ofString s = some p) : p.val = s := by
  unfold Priority.ofString at h
  split_ifs at h with h1 h2 h3 h4
  · have e := Option.some.inj h; subst e; rw [h1]; rfl
  · have e := Option.some.inj h; subst e; rw [h2]; rfl
  · have e := Option.some.inj h; subst e; rw [h3]; rfl
  · have e := Option.some.inj h; subst e; rw [h4]; rfl

theorem status_ofString_val {s : String} {q : Status}
    (h : Status.ofString s = some q) : q.val = s := by
  unfold Status.ofString at h
  split_ifs at h with h1 h2 h3 h4
  · have e := Option.some.inj h; subst e; rw [h1]; rfl
  · have e := Option.some.inj h; subst e; rw [h2]; rfl
  · have e := Option.some.inj h; subst e; rw [h3]; rfl
  · have e := Option.some.inj h; subst e; rw [h4]; rfl

theorem priority_val_valid (p : Priority) :
    validPriorityStr p.val = true := by
  cases p <;> rfl

theorem status_val_valid (q : Status) : validStatusStr q.val = true := by
  cases q <;> rfl

theorem priority_ofString_of_valid {p : String}
    (h : validPriorityStr p = true) :
    ∃ q : Priority, Priority.ofString p = some q ∧ q.val = p := by
  unfold validPriorityStr at h
  simp only [Bool.or_eq_true, beq_iff_eq] at h
  rcases h with ((h | h) | h) | h <;> subst h <;> exact ⟨_, rfl, rfl⟩

theorem status_ofString_of_valid {s : String}
    (h : validStatusStr s = true) :
    ∃ q : Status, Status.ofString s = some q ∧ q.val = s := by
  unfold validStatusStr at h
  simp only [Bool.or_eq_true, beq_iff_eq] at h
  rcases h with ((h | h) | h) | h <;> subst h <;> exact ⟨_, rfl, rfl⟩

theorem row_to_task_some {r : Row} {t : Task}
    (h : row_to_task r = some t) : task_to_row t = r ∧ RowWF r := by
  unfold row_to_task at h
  cases hp : Priority.ofString r.priority with
  | none => rw [hp] at h; cases h
  | some p =>
    cases hs : Status.ofString r.status with
    | none => rw [hp, hs] at h; cases h
    | some q =>
      rw [hp, hs] at h
      have ht := Option.some.inj h
      subst ht
      refine ⟨?_, ?_, ?_⟩
      · unfold task_to_row
        simp [priority_ofString_val hp, status_ofString_val hs]
      · rw [← priority_ofString_val hp]; exact priority_val_valid p
      · rw [← status_ofString_val hs]; exact status_val_valid q

theorem rowsToTasks_map {l : List Row} {ts : List Task}
    (h : rowsToTasks l = some ts) : ts.map task_to_row = l := by
  induction l generalizing ts with
  | nil =>
    unfold rowsToTasks at h
    have := Option.some.inj h
    subst this
    rfl
  | cons r rs ih =>
    unfold rowsToTasks at h
    cases h1 : row_to_task r <;> rw [h1] at h
    · cases h
    · cases h2 : rowsToTasks rs <;> rw [h2] at h
      · cases h
      · have := Option.some.inj h
        subst this
        simp [ih h2, (row_to_task_some h1).1]

theorem rowsToTasks_wf {l : List Row} {ts : List Task}
    (h : rowsToTasks l = some ts) : ∀ r ∈ l, RowWF r := by
  induction l generalizing ts with
  | nil => intro r hr; cases hr
  | cons r rs ih =>
    unfold rowsToTasks at h
    cases h1 : row_to_task r <;> rw [h1] at h
    · cases h
    · cases h2 : rowsToTasks rs <;> rw [h2] at h
      · cases h
      · intro x hx
        rcases List.mem_cons.mp hx with hx | hx
        · subst hx; exact (row_to_task_some h1).2
        · exact ih h2 x hx

theorem rowsToTasks_isSome {l : List Row} (h : ∀ r ∈ l, RowWF r) :
    (rowsToTasks l).isSome = true := by
  induction l with
  | nil => rfl
  | cons r rs ih =>
    obtain ⟨hp, hs⟩ := h r (by simp)
    obtain ⟨q, hq, _⟩ := priority_ofString_of_valid hp
    obtain ⟨q2, hq2, _⟩ := status_ofString_of_valid hs
    have h2 := ih (fun x hx => h x (by simp [hx]))
    cases hres : rowsToTasks rs with
    | none => rw [hres] at h2; cases h2
    | some ts => simp [rowsToTasks, row_to_task, hq, hq2, hres]

/-- On a well-formed table every `list_tasks` call returns (no
`ValueError` can arise while decoding the fetched rows): the success
hypotheses of the listing theorems are satisfiable on every well-formed
store. -/
theorem list_tasks_succeeds_on_wf (st : Store) (a b c : Option String)
    (h : StoreWF st) : (list_tasks st a b c).isSome = true := by
  unfold list_tasks
  apply rowsToTasks_isSome
  intro r hr
  apply h
  unfold queryRows at hr
  have h1 := (List.perm_insertionSort (fun x y => rowLe x y = true)
    (st.rows.filter (rowMatches a b c))).subset hr
  exact List.mem_of_mem_filter h1

/-! ### Frame helper -/

theorem forall₂_map_self {α : Type} (l : List α) (f : α → α)
    (P : α → α → Prop) (h : ∀ x ∈ l, P x (f x)) :
    List.Forall₂ P l (l.map f) := by
  induction l with
  | nil => exact List.Forall₂.nil
  | cons x xs ih =>
    exact List.Forall₂.cons (h x (by simp))
      (ih (fun y hy => h y (by simp [hy])))

/-! ### Counter-dictionary facts -/

theorem bump_sum (d : List (String × Nat)) (k : String) :
    ((bump d k).map Prod.snd).sum = (d.map Prod.snd).sum + 1 := by
  induction d with
  | nil => rfl
  | cons p rest ih =>
    obtain ⟨k2, n⟩ := p
    unfold bump
    by_cases h : k2 = k
    · simp [h]
      omega
    · simp [h, ih]
      omega

theorem foldl_bump_key_sum {α : Type} (f : α → String) (l : List α) :
    ∀ d, ((l.foldl (fun acc x => bump acc (f x)) d).map Prod.snd).sum
      = (d.map Prod.snd).sum + l.length := by
  induction l with
  | nil => intro d; rfl
  | cons x xs ih =>
    intro d
    simp only [List.foldl_cons, List.length_cons]
    rw [ih (bump d (f x)), bump_sum]
    omega

/-! ### Overdue transfer -/

theorem rowOverdue_toRow (t : Task) (today : Date) :
    rowOverdue (task_to_row t) today = t.is_overdue today := by
  obtain ⟨ti, de, pr, stt, dl, tg, no, ca, ua, idf⟩ := t
  cases stt <;>
    simp [rowOverdue, Task.is_overdue, task_to_row, Status.val,
      falsyDeadline]

/-! ### Substring characterisation of the LIKE filter -/

/-- ASCII-lower-cased character list; `lowerL a <:+: lowerL b` states that
`a` occurs in `b` as an ASCII-case-insensitive contiguous substring. -/
def lowerL (l : List Char) : List Char := l.map asciiLower

theorem likeMatch_pct_nil (s : List Char) : likeMatch ['%'] s = true := by
  simp only [likeMatch]
  rw [if_true, List.any_eq_true]
  exact ⟨[], (List.mem_tails _ _).mpr List.nil_suffix, rfl⟩

theorem likeMatch_plain (ts : List Char)
    (hm : ∀ c ∈ ts, c ≠ '%' ∧ c ≠ '_') :
    ∀ s, (likeMatch (ts ++ ['%']) s = true ↔ lowerL ts <+: lowerL s) := by
  induction ts with
  | nil =>
    intro s
    constructor
    · intro _; exact List.nil_prefix
    · intro _; exact likeMatch_pct_nil s
  | cons t ts ih =>
    intro s
    obtain ⟨ht1, ht2⟩ := hm t (by simp)
    have hm2 : ∀ c ∈ ts, c ≠ '%' ∧ c ≠ '_' :=
      fun c hc => hm c (by simp [hc])
    cases s with
    | nil =>
      simp only [List.cons_append, likeMatch, if_neg ht1, lowerL,
        List.map_cons, List.map_nil]
      constructor
      · intro h; cases h
      · intro h
        have := List.prefix_nil.mp h
        cases this
    | cons c cs =>
      simp only [List.cons_append, likeMatch, if_neg ht1, if_neg ht2,
        Bool.and_eq_true, beq_iff_eq, lowerL, List.map_cons,
        List.append_eq]
      rw [ih hm2 cs, List.cons_prefix_cons]
      exact Iff.rfl

theorem likeMatch_pct_iff (ps s : List Char) :
    likeMatch ('%' :: ps) s = true ↔
      ∃ t, t <:+ s ∧ likeMatch ps t = true := by
  simp only [likeMatch]
  rw [if_true, List.any_eq_true]
  constructor
  · rintro ⟨t, h1, h2⟩
    exact ⟨t, (List.mem_tails _ _).mp h1, h2⟩
  · rintro ⟨t, h1, h2⟩
    exact ⟨t, (List.mem_tails _ _).mpr h1, h2⟩

theorem likeSub_iff_ci (term s : String)
    (hm : ∀ c ∈ term.data, c ≠ '%' ∧ c ≠ '_') :
    likeSub term s = true ↔ lowerL term.data <:+: lowerL s.data := by
  unfold likeSub
  rw [likeMatch_pct_iff]
  constructor
  · rintro ⟨t, hts, hmatch⟩
    rw [likeMatch_plain term.data hm t] at hmatch
    exact List.infix_iff_prefix_suffix.mpr
      ⟨lowerL t, hmatch, List.IsSuffix.map asciiLower hts⟩
  · intro h
    obtain ⟨t2, hpre, hsuf⟩ := List.infix_iff_prefix_suffix.mp h
    obtain ⟨pre, hpre2⟩ := hsuf
    unfold lowerL at hpre2
    obtain ⟨l1, l2, hsplit, hmap1, hmap2⟩ :=
      List.map_eq_append_iff.mp hpre2.symm
    refine ⟨l2, ⟨l1, hsplit.symm⟩, ?_⟩
    rw [likeMatch_plain term.data hm l2]
    show lowerL term.data <+: lowerL l2
    unfold lowerL
    rw [hmap2]
    exact hpre

/-- ASCII-case-insensitive substring occurrence of `term` in `text`; the
characterisation of what the search filter actually selects. -/
def containsCI (term text : String) : Prop :=
  lowerL term.data <:+: lowerL text.data

instance (term text : String) : Decidable (containsCI term text) :=
  List.decidableInfix _ _

/-- Search acceptance of a row as the code implements it, characterised:
the term occurs ASCII-case-insensitively in the title or the
description. -/
def searchMatchesCI (term : String) (r : Row) : Bool :=
  decide (containsCI term r.title) || decide (containsCI term r.description)

/-- Modelled from the spec: the spec's case-SENSITIVE substring test for
the search filter ("contains TERM as a substring, case-sensitively"),
written only to compare the documented behaviour against the code. -/
def searchMatchesCS (term : String) (r : Row) : Bool :=
  decide (term.data <:+: r.title.data)
    || decide (term.data <:+: r.description.data)

/-! ### Sample data for witnesses -/

/-- Sample stored row: low priority, no deadline, created first. -/
def sampleRowA : Row :=
  ⟨1, "Alpha", "", "low", "pending", none, [], "", "t1", "t1"⟩

/-- Sample stored row: urgent priority with a deadline, created second. -/
def sampleRowB : Row :=
  ⟨2, "beta", "milk", "urgent", "pending", some "2026-01-01", [], "",
   "t2", "t2"⟩

/-- Sample store holding the two sample rows in insertion order. -/
def sampleStore : Store := ⟨[sampleRowA, sampleRowB], 3⟩

/-- The task `_row_to_task` produces from `sampleRowA`. -/
def sampleTaskA : Task :=
  ⟨"Alpha", "", .low, .pending, none, [], "", "t1", "t1", some 1⟩

/-- The task `_row_to_task` produces from `sampleRowB`. -/
def sampleTaskB : Task :=
  ⟨"beta", "milk", .urgent, .pending, some "2026-01-01", [], "", "t2",
   "t2", some 2⟩

/-- The aggregate `stats` computes on the sample store with today taken
as 2026-06-01 (the urgent task's deadline has passed). -/
def statsSample : StatsR :=
  ⟨2, [("pending", 2)], [("urgent", 1), ("low", 1)], 1⟩

/-- Stored row whose title is lower-case "abc", for the search
case-sensitivity counterexample. -/
def csRow : Row := ⟨1, "abc", "", "low", "pending", none, [], "", "t1", "t1"⟩

/-- Store holding only `csRow`. -/
def csStore : Store := ⟨[csRow], 2⟩

/-- The task `_row_to_task` produces from `csRow`. -/
def csTask : Task := ⟨"abc", "", .low, .pending, none, [], "", "t1", "t1", some 1⟩

/-! ### Claims -/

/-- C1: for every stored task set (hence regardless of insertion order), a
successful unfiltered `list_tasks` returns exactly the stored tasks (the
serialized result is a permutation of the table) and returns them sorted:
primarily by priority rank (urgent before high before medium before low),
secondarily by deadline ascending with absent deadlines last, and finally
by creation time ascending. -/
theorem list_unfiltered_sorted_complete (st : Store) (ts : List Task)
    (h : list_tasks st none none none = some ts) :
    (ts.map task_to_row).Perm st.rows ∧
      List.Pairwise
        (fun a b => rowBefore (task_to_row a) (task_to_row b)) ts := by
  unfold list_tasks at h
  have hmap := rowsToTasks_map h
  have hfil : st.rows.filter (rowMatches none none none) = st.rows :=
    List.filter_eq_self.mpr (fun r _ => rfl)
  constructor
  · rw [hmap]
    unfold queryRows
    rw [hfil]
    exact List.perm_insertionSort _ _
  · haveI instTot : IsTotal Row (fun a b => rowLe a b = true) :=
      ⟨rowLe_total⟩
    haveI instTra : IsTrans Row (fun a b => rowLe a b = true) :=
      ⟨fun a b c => rowLe_trans⟩
    have hs : List.Pairwise (fun a b : Row => rowLe a b = true)
        (queryRows st none none none) :=
      List.sorted_insertionSort _ _
    rw [← hmap, List.pairwise_map] at hs
    exact hs.imp (fun hab => (rowLe_iff_rowBefore _ _).mp hab)

/-- C1 witness: on the sample store the hypothesis of
`list_unfiltered_sorted_complete` holds with the concrete result list
(the urgent task first), so its conclusion is obtained at that input. -/
theorem list_unfiltered_sorted_complete_witness :
    (([sampleTaskB, sampleTaskA].map task_to_row).Perm sampleStore.rows ∧
      List.Pairwise
        (fun a b => rowBefore (task_to_row a) (task_to_row b))
        [sampleTaskB, sampleTaskA]) :=
  list_unfiltered_sorted_complete sampleStore [sampleTaskB, sampleTaskA]
    (by decide)

/-- C10: passing the empty string as the status, priority, or search
argument of `list_tasks` behaves exactly as passing no filter at all
(Python's `if status:` truthiness test drops the clause), so the result
coincides with the unfiltered call. -/
theorem empty_string_filter_is_no_filter (st : Store)
    (a b : Option String) :
    list_tasks st (some "") a b = list_tasks st none a b ∧
    list_tasks st a (some "") b = list_tasks st a none b ∧
    list_tasks st a b (some "") = list_tasks st a b none ∧
    list_tasks st (some "") (some "") (some "") =
      list_tasks st none none none :=
  ⟨rfl, rfl, rfl, rfl⟩

/-- C4: `update_status` on an id present in the table returns true,
leaves the id sequence untouched, and rewrites the table pointwise: every
row keeps its id, title, description, priority, deadline, tags, notes and
created_at; rows with other ids are untouched entirely; the rows with the
given id get exactly the new status and the fresh updated_at. -/
theorem update_status_existing_frame (st : Store) (i : Nat)
    (ns now : String) (h : ∃ r ∈ st.rows, r.id = i) :
    (update_status st i ns now).1 = true ∧
    (update_status st i ns now).2.nextId = st.nextId ∧
    List.Forall₂ (fun old new =>
        new.id = old.id ∧ new.title = old.title ∧
        new.description = old.description ∧
        new.priority = old.priority ∧ new.deadline = old.deadline ∧
        new.tags = old.tags ∧ new.notes = old.notes ∧
        new.created_at = old.created_at ∧
        (old.id = i → new.status = ns ∧ new.updated_at = now) ∧
        (old.id ≠ i → new = old))
      st.rows (update_status st i ns now).2.rows := by
  refine ⟨?_, rfl, ?_⟩
  · unfold update_status
    rw [List.any_eq_true]
    obtain ⟨r, hr, hid⟩ := h
    exact ⟨r, hr, by simp [hid]⟩
  · unfold update_status
    apply forall₂_map_self
    intro r hr
    by_cases hid : r.id = i
    · simp [hid]
    · simp [hid]

/-- C4 witness: the sample store contains id 2, so the frame theorem
applies there and in particular reports success. -/
theorem update_status_existing_frame_witness :
    (update_status sampleStore 2 "done" "t9").1 = true :=
  (update_status_existing_frame sampleStore 2 "done" "t9"
    ⟨sampleRowB, by decide, by decide⟩).1

/-- C5: on an id absent from the table, `update_status` returns false and
leaves the store unchanged, and `delete` returns false and leaves the
store unchanged; both are total functions (the not-found case surfaces no
exception, only the boolean). -/
theorem not_found_returns_false_unchanged (st : Store) (i : Nat)
    (ns now : String) (h : ∀ r ∈ st.rows, r.id ≠ i) :
    update_status st i ns now = (false, st) ∧ delete st i = (false, st) := by
  have hany : st.rows.any (fun r => r.id == i) = false := by
    rw [List.any_eq_false]
    intro r hr
    simp [h r hr]
  constructor
  · unfold update_status
    rw [hany]
    have hmapid : st.rows.map (fun r =>
        if r.id = i then { r with status := ns, updated_at := now }
        else r) = st.rows := by
      conv_rhs => rw [← List.map_id st.rows]
      apply List.map_congr_left
      intro r hr
      simp [h r hr]
    rw [hmapid]
  · unfold delete
    rw [hany]
    have hfil : st.rows.filter (fun r => !(r.id == i)) = st.rows := by
      apply List.filter_eq_self.mpr
      intro r hr
      simp [h r hr]
    rw [hfil]

/-- C5 witness: id 9 is not in the sample store; both operations report
false and leave the store intact there. -/
theorem not_found_returns_false_unchanged_witness :
    update_status sampleStore 9 "done" "t9" = (false, sampleStore) ∧
      delete sampleStore 9 = (false, sampleStore) :=
  not_found_returns_false_unchanged sampleStore 9 "done" "t9" (by decide)

/-- C3 counterexample: `add` called with the priority string "bogus"
(outside the enumeration) fails — `Priority(priority)` raises
`ValueError` before the INSERT — so `add` does have a failure path that
is not a storage failure, refuting the claim for arbitrary inputs. -/
theorem add_invalid_priority_fails :
    add ⟨[], 1⟩ "x" "" "bogus" none [] "" "t0" = none := rfl

/-- C3 amended: for every input whose priority string lies in the
enumeration, `add` succeeds (the only remaining failure source being the
storage layer, which the model takes as reliable): it stamps `now` into
both `created_at` and `updated_at`, inserts one row with status
`pending` at the next id, and returns the task carrying that id. -/
theorem add_valid_priority_succeeds (st : Store) (title de p : String)
    (dl : Option String) (tags : List String) (no now : String)
    (h : validPriorityStr p = true) :
    ∃ t st2, add st title de p dl tags no now = some (t, st2) ∧
      t.created_at = now ∧ t.updated_at = now ∧
      t.status = Status.pending ∧ t.id = some st.nextId ∧
      t.title = title ∧ t.description = de ∧ t.priority.val = p ∧
      t.deadline = dl ∧ t.tags = tags ∧ t.notes = no ∧
      st2.rows = st.rows ++ [task_to_row t] ∧
      st2.nextId = st.nextId + 1 := by
  obtain ⟨q, hq, hval⟩ := priority_ofString_of_valid h
  unfold add
  rw [hq]
  exact ⟨_, _, rfl, rfl, rfl, rfl, rfl, rfl, rfl, hval, rfl, rfl, rfl,
    rfl, rfl⟩

/-- C3 witness: adding with the valid priority "high" to the sample
store succeeds. -/
theorem add_valid_priority_succeeds_witness :
    (add sampleStore "x" "" "high" none [] "" "t7").isSome = true := by
  obtain ⟨t, st2, he, _⟩ :=
    add_valid_priority_succeeds sampleStore "x" "" "high" none [] "" "t7"
      (by decide)
  rw [he]
  rfl

/-- C9 counterexample: starting from an empty store, adding one task and
then calling `update_status` with the string "bogus" stores "bogus" in
the status column — the engine performs no validation and the schema has
no CHECK constraint, so the enumeration is not enforced at the storage
boundary. -/
theorem update_status_stores_invalid_enum :
    ((([Op.addT "a" "" "medium" none [] "" "t0",
        Op.updT 1 "bogus" "t1"] : List Op).foldl applyOp ⟨[], 1⟩).rows.map
        Row.status) = ["bogus"] ∧
      validStatusStr "bogus" = false := by
  exact ⟨rfl, rfl⟩

theorem applyOp_wf (st : Store) (op : Op) (hwf : StoreWF st)
    (hop : OpValid op) : StoreWF (applyOp st op) := by
  cases op with
  | addT t d p dl tg n now =>
    simp only [applyOp]
    cases hp : add st t d p dl tg n now with
    | none => exact hwf
    | some pair =>
      unfold add at hp
      cases hq : Priority.ofString p <;> rw [hq] at hp
      · cases hp
      · have he := Option.some.inj hp
        subst he
        intro r hr
        simp only [List.mem_append, List.mem_singleton] at hr
        rcases hr with hr | hr
        · exact hwf r hr
        · subst hr
          exact ⟨priority_val_valid _, rfl⟩
  | updT i s now =>
    intro r hr
    simp only [applyOp, update_status, List.mem_map] at hr
    obtain ⟨r0, hr0, hfr⟩ := hr
    subst hfr
    by_cases hid : r0.id = i
    · simp only [if_pos hid]
      exact ⟨(hwf r0 hr0).1, hop⟩
    · simp only [if_neg hid]
      exact hwf r0 hr0
  | delT i =>
    intro r hr
    simp only [applyOp, delete] at hr
    exact hwf r (List.mem_of_mem_filter hr)

/-- C9 amended: after every sequence of engine operations in which every
`update_status` call passes a status string from the enumeration, every
stored row's priority is one of low/medium/high/urgent and its status one
of pending/in_progress/done/cancelled (`add` itself rejects priorities
outside the enumeration and always inserts status `pending`); the
enumeration invariant is maintained by the engine only under that proviso,
not enforced by the storage layer. -/
theorem enum_invariant_preserved : ∀ (ops : List Op) (st : Store),
    StoreWF st → (∀ op ∈ ops, OpValid op) →
      StoreWF (ops.foldl applyOp st) := by
  intro ops
  induction ops with
  | nil => intro st hwf _; exact hwf
  | cons op rest ih =>
    intro st hwf hops
    simp only [List.foldl_cons]
    apply ih
    · exact applyOp_wf st op hwf (hops op (by simp))
    · intro op2 h2
      exact hops op2 (by simp [h2])

/-- C9 witness: the empty store is well-formed and a concrete valid
operation sequence (an add, a valid status update, a delete) preserves
the enumeration invariant. -/
theorem enum_invariant_preserved_witness :
    StoreWF ([Op.addT "a" "" "medium" none [] "" "t0",
              Op.updT 1 "done" "t1",
              Op.delT 1].foldl applyOp ⟨[], 1⟩) :=
  enum_invariant_preserved _ ⟨[], 1⟩ (by intro r hr; cases hr)
    (by intro op hop; fin_cases hop <;> trivial)

/-- C6: a task is overdue exactly when its deadline is set to a string
that parses as a calendar date strictly before today and its status is
neither done nor cancelled.  In particular a task with no deadline is
never overdue, and changing the status of an overdue task to done or
cancelled (which touches no other field) makes it not overdue. -/
theorem is_overdue_iff (t : Task) (today : Date) :
    t.is_overdue today = true ↔
      ∃ d dt, t.deadline = some d ∧ parseISODate d = some dt ∧
        Date.lt dt today = true ∧
        t.status ≠ Status.done ∧ t.status ≠ Status.cancelled := by
  unfold Task.is_overdue
  cases hd : t.deadline with
  | none => simp [falsyDeadline]
  | some d =>
    by_cases hdone : t.status = Status.done
    · simp [falsyDeadline, hdone]
    · by_cases hcan : t.status = Status.cancelled
      · simp [falsyDeadline, hcan]
      · by_cases hnil : d = ""
        · subst hnil
          have hpn : parseISODate "" = none := rfl
          simp [falsyDeadline, hdone, hcan, hpn]
        · cases hp : parseISODate d with
          | none => simp [falsyDeadline, hnil, hdone, hcan, hp]
          | some dt => simp [falsyDeadline, hnil, hdone, hcan, hp]

/-- C7: whenever `stats` returns, the by_status counts sum to the total,
the by_priority counts sum to the total, and the overdue counter equals
the number of stored rows satisfying the derived overdue predicate,
recomputed independently over the whole table. -/
theorem stats_sums_consistent (st : Store) (today : Date) (s : StatsR)
    (h : stats st today = some s) :
    (s.by_status.map Prod.snd).sum = s.total ∧
    (s.by_priority.map Prod.snd).sum = s.total ∧
    s.overdue = st.rows.countP (fun r => rowOverdue r today) := by
  unfold stats at h
  cases hl : list_tasks st none none none <;> rw [hl] at h
  · cases h
  · rename_i ts
    have hs := Option.some.inj h
    subst hs
    refine ⟨?_, ?_, ?_⟩
    · simpa using foldl_bump_key_sum (fun t : Task => t.status.val) ts []
    · simpa using
        foldl_bump_key_sum (fun t : Task => t.priority.val) ts []
    · show ts.countP (fun t => t.is_overdue today)
        = st.rows.countP (fun r => rowOverdue r today)
      unfold list_tasks at hl
      have hmap := rowsToTasks_map hl
      have hfil : st.rows.filter (rowMatches none none none) = st.rows :=
        List.filter_eq_self.mpr (fun r _ => rfl)
      have hperm : (ts.map task_to_row).Perm st.rows := by
        rw [hmap]
        unfold queryRows
        rw [hfil]
        exact List.perm_insertionSort _ _
      have hfun : (fun t : Task => t.is_overdue today)
          = fun t => rowOverdue (task_to_row t) today := by
        funext t
        rw [rowOverdue_toRow]
      calc ts.countP (fun t => t.is_overdue today)
          = (ts.map task_to_row).countP (fun r => rowOverdue r today) := by
            rw [List.countP_map, hfun]
            rfl
        _ = st.rows.countP (fun r => rowOverdue r today) :=
            List.Perm.countP_eq _ hperm

/-- C7 witness: `stats` returns on the sample store (today taken as
2026-06-01), and the consistency facts hold at that output. -/
theorem stats_sums_consistent_witness :
    ((statsSample.by_status.map Prod.snd).sum = statsSample.total ∧
     (statsSample.by_priority.map Prod.snd).sum = statsSample.total ∧
     statsSample.overdue =
       sampleStore.rows.countP (fun r => rowOverdue r ⟨2026, 6, 1⟩)) :=
  stats_sums_consistent sampleStore ⟨2026, 6, 1⟩ statsSample (by decide)

/-- C8: whenever `export_json` returns, the returned count equals the
number of records written, the records are exactly the stored rows (one
record per task, a permutation of the table), they appear in the standard
sort order, and every record carries its priority and status as plain
enumeration text values (tags being carried as an array by
construction). -/
theorem export_one_record_per_task (st : Store) (recs : List Row)
    (n : Nat) (h : export_json st = some (recs, n)) :
    n = recs.length ∧ recs.Perm st.rows ∧
      List.Pairwise rowBefore recs ∧ ∀ r ∈ recs, RowWF r := by
  unfold export_json at h
  cases hl : list_tasks st none none none <;> rw [hl] at h
  · cases h
  · rename_i ts
    have hh := Option.some.inj h
    injection hh with hA hB
    subst hA
    subst hB
    unfold list_tasks at hl
    have hmap := rowsToTasks_map hl
    have hfil : st.rows.filter (rowMatches none none none) = st.rows :=
      List.filter_eq_self.mpr (fun r _ => rfl)
    refine ⟨rfl, ?_, ?_, ?_⟩
    · rw [hmap]
      unfold queryRows
      rw [hfil]
      exact List.perm_insertionSort _ _
    · haveI instTot : IsTotal Row (fun a b => rowLe a b = true) :=
        ⟨rowLe_total⟩
      haveI instTra : IsTrans Row (fun a b => rowLe a b = true) :=
        ⟨fun a b c => rowLe_trans⟩
      rw [hmap]
      unfold queryRows
      exact (List.sorted_insertionSort _ _).imp
        (fun hab => (rowLe_iff_rowBefore _ _).mp hab)
    · intro r hr
      rw [hmap] at hr
      exact rowsToTasks_wf hl r hr

/-- C8 witness: `export_json` returns on the sample store with the two
records in sorted order, and the record facts hold there. -/
theorem export_one_record_per_task_witness :
    (2 = ([task_to_row sampleTaskB, task_to_row sampleTaskA]).length ∧
      ([task_to_row sampleTaskB, task_to_row sampleTaskA]).Perm
        sampleStore.rows ∧
      List.Pairwise rowBefore
        [task_to_row sampleTaskB, task_to_row sampleTaskA] ∧
      ∀ r ∈ [task_to_row sampleTaskB, task_to_row sampleTaskA], RowWF r) :=
  export_one_record_per_task sampleStore
    [task_to_row sampleTaskB, task_to_row sampleTaskA] 2 (by decide)

/-- C2 counterexample: with one stored task titled "abc", searching for
"ABC" returns that task although neither its title nor its description
contains "ABC" as a case-sensitive substring — SQLite's `LIKE` folds
ASCII case, so the documented case sensitivity is refuted.  Moreover the
term "a%c", not a substring of "abc" either, also matches: `%` acts as a
wildcard inside the term. -/
theorem search_filter_not_case_sensitive :
    list_tasks csStore none none (some "ABC") = some [csTask] ∧
      searchMatchesCS "ABC" csRow = false ∧
      list_tasks csStore none none (some "a%c") = some [csTask] ∧
      searchMatchesCS "a%c" csRow = false := by
  refine ⟨by decide, by decide, by decide, by decide⟩

/-- C2 amended: for a search term free of the `LIKE` metacharacters `%`
and `_`, a successful `list_tasks` call with that search filter returns
exactly the stored tasks whose title or description contains the term as
an ASCII-case-insensitive substring (and excludes all others); the
documented case-sensitive reading fails, see the counterexample. -/
theorem search_filter_ci_substring (st : Store) (term : String)
    (ts : List Task) (hm : ∀ c ∈ term.data, c ≠ '%' ∧ c ≠ '_')
    (h : list_tasks st none none (some term) = some ts) :
    (ts.map task_to_row).Perm
      (st.rows.filter (fun r => searchMatchesCI term r)) := by
  unfold list_tasks at h
  have hmap := rowsToTasks_map h
  rw [hmap]
  unfold queryRows
  have hfil : st.rows.filter (rowMatches none none (some term))
      = st.rows.filter (fun r => searchMatchesCI term r) := by
    apply List.filter_congr
    intro r hr
    by_cases hterm : term = ""
    · subst hterm
      have h1 : containsCI "" r.title := List.nil_infix
      have h2 : containsCI "" r.description := List.nil_infix
      simp [rowMatches, searchMatchesCI, h1, h2]
    · have e1 := likeSub_iff_ci term r.title hm
      have e2 := likeSub_iff_ci term r.description hm
      simp only [rowMatches, searchMatchesCI, if_neg hterm,
        Bool.true_and]
      rw [Bool.eq_iff_iff, Bool.or_eq_true, Bool.or_eq_true, e1, e2]
      simp [containsCI]
  rw [hfil]
  exact List.perm_insertionSort _ _

/-- C2 witness: searching the sample store for "AL" (no metacharacters)
selects exactly the task titled "Alpha". -/
theorem search_filter_ci_substring_witness :
    ([sampleTaskA].map task_to_row).Perm
      (sampleStore.rows.filter (fun r => searchMatchesCI "AL" r)) :=
  search_filter_ci_substring sampleStore "AL" [sampleTaskA] (by decide)
    (by decide)

end TaskManager
